import Mathlib

/-!
Verification development for the AAP/AMI opportunity-watch data layer
(`assets/js/store.js`, `assets/js/utils.js`, `assets/js/ui.js`).

Shallow embedding conventions:
* JS strings are modelled as `List Char` (`JStr`); JS string comparison
  (`<=`, `>=`, `localeCompare` on ISO date strings) is the lexicographic
  order on `List Char`.
* JS values occurring in the upstream dataset are modelled by `JsScalar`
  (null / undefined collapsed to `null`, booleans, integer numbers,
  strings) and `JsVal` (a scalar or a flat array of scalars).  Nested
  arrays / nested objects and float numbers do not occur in any code path
  the claims are about and are outside the modelled value universe.
* JS `Date` parsing (a host API) is modelled on the exact ISO
  `YYYY-MM-DD` subset: such strings parse to themselves, everything else
  is treated as unparseable and normalises to the empty string.
* `localStorage` is modelled as a field `storage` of the store state
  holding the parsed overlay mapping (the serialised blob round-trips
  through `JSON.stringify`/`JSON.parse`).
* The wall clock used by `daysUntil` is modelled by passing the
  `daysUntil` function itself as a parameter to the query engine.
-/

/-! ### JS strings -/

abbrev JStr := List Char

/-- Embed a Lean string literal as a modelled JS string. -/
def st (s : String) : JStr := s.data

/-! ### JS values -/

/-- A primitive JS value (null/undefined, boolean, integer number, string). -/
inductive JsScalar where
  | null
  | bool (b : Bool)
  | num (n : Int)
  | str (s : JStr)
  deriving DecidableEq, Repr

/-- A JS value as it occurs in upstream record fields: a primitive or a
flat array of primitives. -/
inductive JsVal where
  | scalar (v : JsScalar)
  | list (xs : List JsScalar)
  deriving DecidableEq, Repr

/-- A raw upstream record: a JS object, modelled as an association list
from field names to values (JS objects have unique keys; lookup takes the
first binding). -/
abbrev RawRecord := List (String × JsVal)

/-! ### Decimal rendering (JS number-to-string for integers) -/

def digitToChar : Nat → Char
  | 0 => '0' | 1 => '1' | 2 => '2' | 3 => '3' | 4 => '4'
  | 5 => '5' | 6 => '6' | 7 => '7' | 8 => '8' | _ => '9'

/-- Little-endian decimal digits of `n`, with explicit fuel so that the
definition is structural (hence kernel-computable). -/
def natDigsF : Nat → Nat → List Nat
  | 0, _ => []
  | f + 1, n => if n = 0 then [] else n % 10 :: natDigsF f (n / 10)

/-- Decimal rendering of a natural number, as JS renders integers. -/
def natDecimal (n : Nat) : JStr :=
  if n = 0 then ['0'] else ((natDigsF n n).map digitToChar).reverse

/-- Decimal rendering of an integer, as JS `String(n)` for integers. -/
def intDecimal (n : Int) : JStr :=
  if n < 0 then '-' :: natDecimal n.natAbs else natDecimal n.toNat

/-! ### JS string conversion (`String(v)`, `Array.prototype.join`) -/

/-- JS `String(v)` for primitive values. -/
def JsScalar.toStr : JsScalar → JStr
  | .null => st "null"
  | .bool b => cond b (st "true") (st "false")
  | .num n => intDecimal n
  | .str s => s

/-- An element as rendered by `Array.prototype.join`: null/undefined
render as the empty string, everything else via `String(v)`. -/
def jsElemStr (v : JsScalar) : JStr := if v = .null then [] else v.toStr

/-- JS `String(v)`: arrays stringify as their elements joined by `,`. -/
def JsVal.toStr : JsVal → JStr
  | .scalar v => v.toStr
  | .list xs => List.intercalate (st ",") (xs.map jsElemStr)

/-- JS `String(v)` as used for elements of `Array.prototype.join`
(null/undefined become the empty string). -/
def jsValElemStr (v : JsVal) : JStr :=
  if v = .scalar .null then [] else v.toStr

/-! ### utils.js -/

/-- utils.js `PIPELINE_STATUSES`. -/
def PIPELINE_STATUSES : List JStr :=
  [st "À qualifier", st "En analyse", st "Go", st "No-Go", st "Déposé", st "Abandonné"]

/-- utils.js `asArray`: arrays pass through, `null`/`undefined`/`""`
become `[]`, any other value becomes a one-element array. -/
def asArray (v : JsVal) : List JsScalar :=
  match v with
  | .list xs => xs
  | .scalar s => if s = .null ∨ s = .str [] then [] else [s]

/-- `Array.prototype.join(sep)`. -/
def joinJs (xs : List JsScalar) (sep : JStr) : JStr :=
  List.intercalate sep (xs.map jsElemStr)

/-- JS `record[key]`: an absent field reads as `undefined` (modelled as
`null`). -/
def jsGet (r : RawRecord) (k : String) : JsVal :=
  match r.find? (fun kv => decide (kv.1 = k)) with
  | some kv => kv.2
  | none => .scalar .null

/-- The searching part of utils.js `pick`: the first key whose value is
neither `null`/`undefined` nor the empty string, if any. -/
def pickVal (r : RawRecord) : List String → Option JsVal
  | [] => none
  | k :: ks =>
    if jsGet r k = JsVal.scalar .null ∨ jsGet r k = JsVal.scalar (.str []) then
      pickVal r ks
    else
      some (jsGet r k)

/-- utils.js `pick(record, keys, fallback)`. -/
def pick (r : RawRecord) (keys : List String) (fallback : JsVal) : JsVal :=
  (pickVal r keys).getD fallback

/-- Decimal digit test. -/
def isDig (c : Char) : Bool := decide ('0' ≤ c) && decide (c ≤ '9')

/-- Numeric value of a decimal digit character. -/
def digVal (c : Char) : Nat := c.toNat - '0'.toNat

def isLeapYear (y : Nat) : Bool :=
  (y % 4 = 0) && (!(y % 100 = 0) || (y % 400 = 0))

def monthLen (y m : Nat) : Nat :=
  if m = 2 then (if isLeapYear y then 29 else 28)
  else if m = 4 ∨ m = 6 ∨ m = 9 ∨ m = 11 then 30
  else 31

/-- Exact `YYYY-MM-DD` calendar date recognition (the modelled subset of
JS `Date` parsing). -/
def isIsoDateChars : JStr → Bool
  | [y1, y2, y3, y4, h1, m1, m2, h2, d1, d2] =>
    isDig y1 && isDig y2 && isDig y3 && isDig y4 && (h1 = '-') &&
    isDig m1 && isDig m2 && (h2 = '-') && isDig d1 && isDig d2 &&
    (let mm := 10 * digVal m1 + digVal m2
     let dd := 10 * digVal d1 + digVal d2
     let yy := 1000 * digVal y1 + 100 * digVal y2 + 10 * digVal y3 + digVal y4
     (1 ≤ mm) && (mm ≤ 12) && (1 ≤ dd) && (dd ≤ monthLen yy mm))
  | _ => false

/-- JS falsiness of the modelled values. -/
def jsFalsy (v : JsVal) : Bool :=
  v = .scalar .null ∨ v = .scalar (.bool false) ∨ v = .scalar (.num 0) ∨ v = .scalar (.str [])

/-- utils.js `parseDate`, on the modelled `Date` subset: falsy values and
unparseable values give `null`; an ISO `YYYY-MM-DD` string parses. -/
def parseDateJ (v : JsVal) : Option JStr :=
  if jsFalsy v then none
  else match v with
    | .scalar (.str s) => if isIsoDateChars s then some s else none
    | _ => none

/-- utils.js `toISODate`: on the modelled subset an ISO date string
round-trips through `toISOString().slice(0, 10)` to itself; anything
unparseable gives the empty string. -/
def toISODate (v : JsVal) : JStr := (parseDateJ v).getD []

/-- ASCII lowering (the modelled subset of JS `toLowerCase`). -/
def lowerC (c : Char) : Char :=
  if decide ('A' ≤ c) && decide (c ≤ 'Z') then Char.ofNat (c.toNat + 32) else c

def lowerJ (s : JStr) : JStr := s.map lowerC

/-- Substring containment (`String.prototype.includes`). -/
def hasSub (h n : JStr) : Bool :=
  (List.range (h.length + 1)).any (fun i => n.isPrefixOf (h.drop i))

/-- utils.js `textIncludes`: case-insensitive substring match. -/
def textIncludes (h n : JStr) : Bool := hasSub (lowerJ h) (lowerJ n)

/-- JS whitespace test for `trim` (common subset). -/
def isWS (c : Char) : Bool := c = ' ' ∨ c = '\t' ∨ c = '\n' ∨ c = '\r'

/-- `String.prototype.trim`. -/
def trimJ (s : JStr) : JStr :=
  ((s.dropWhile isWS).reverse.dropWhile isWS).reverse

/-- utils.js `csvEscape`'s test `/[",\n;]/`: note it matches the comma as
well as the quote, newline and semicolon. -/
def isCsvSpecial (c : Char) : Bool := c = '"' ∨ c = ',' ∨ c = '\n' ∨ c = ';'

/-- `str.replaceAll('"', '""')`. -/
def escQuotes : JStr → JStr
  | [] => []
  | c :: rest => if c = '"' then '"' :: '"' :: escQuotes rest else c :: escQuotes rest

/-- utils.js `csvEscape` on an already-stringified value. -/
def csvEscape (s : JStr) : JStr :=
  if s.any isCsvSpecial then '"' :: (escQuotes s ++ ['"']) else s

/-- utils.js `csvEscape` on a raw value: `(value ?? "").toString()` then
escape. -/
def csvEscapeVal (v : JsVal) : JStr :=
  csvEscape (if v = .scalar .null then [] else v.toStr)

/-- utils.js `recommendation(score, blockers)`. -/
def recommendation (score : Int) (blockers : JStr) : JStr :=
  if trimJ blockers ≠ [] then st "No-Go (blockers)"
  else if score ≥ 20 then st "Go"
  else if score ≥ 12 then st "À approfondir"
  else st "No-Go"

/-! ### Data model (store.js) -/

/-- A normalized opportunity, as produced by `normalizeOpportunity`.
`title` and `sourceUrl` keep the raw picked value (the source does not
stringify them); `raw` retains the original record verbatim. -/
structure Opportunity where
  id : JStr
  title : JsVal
  type : JStr
  category : JStr
  axis : JStr
  territory : JStr
  deadline : JStr
  sourceUrl : JsVal
  raw : RawRecord
  deriving DecidableEq, Repr

/-- The score sub-record of an overlay entry. -/
structure ScoreCard where
  strategic_fit : Int
  eligibility : Int
  effort : Int
  impact : Int
  timing : Int
  blockers : JStr
  deriving DecidableEq, Repr

/-- An overlay entry (the user-authored evaluation of one opportunity). -/
structure Annot where
  notes : JStr
  status : JStr
  owner : JStr
  nextAction : JStr
  nextDate : JStr
  score : ScoreCard
  deriving DecidableEq, Repr

/-- The default entry materialised by `getLocal` when nothing is stored. -/
def defaultAnnot : Annot :=
  { notes := []
    status := PIPELINE_STATUSES.headD []
    owner := []
    nextAction := []
    nextDate := []
    score :=
      { strategic_fit := 0
        eligibility := 0
        effort := 0
        impact := 0
        timing := 0
        blockers := [] } }

/-- The overlay mapping `state.local`: a JS object keyed by opportunity
id, modelled as an association list with unique keys. -/
abbrev Overlay := List (JStr × Annot)

/-- JS object property read `state.local[id]`. -/
def lookupOv (ov : Overlay) (id : JStr) : Option Annot :=
  (ov.find? (fun e => decide (e.1 = id))).map (·.2)

/-- JS object property write `state.local[id] = a` (replaces an existing
binding in place, else appends a new one). -/
def setOv : Overlay → JStr → Annot → Overlay
  | [], id, a => [(id, a)]
  | e :: rest, id, a => if e.1 = id then (id, a) :: rest else e :: setOv rest id a

/-- A partial overlay entry, as passed to `patchLocal` (spread-merge
semantics: a present field overrides, an absent field is preserved). -/
structure PatchA where
  notes? : Option JStr := none
  status? : Option JStr := none
  owner? : Option JStr := none
  nextAction? : Option JStr := none
  nextDate? : Option JStr := none
  score? : Option ScoreCard := none
  deriving DecidableEq, Repr

/-- JS object spread `{ ...a, ...p }` on overlay entries. -/
def applyPatch (a : Annot) (p : PatchA) : Annot :=
  { notes := p.notes?.getD a.notes
    status := p.status?.getD a.status
    owner := p.owner?.getD a.owner
    nextAction := p.nextAction?.getD a.nextAction
    nextDate := p.nextDate?.getD a.nextDate
    score := p.score?.getD a.score }

/-- A partial score card, as passed to `patchScore`. -/
structure ScorePatch where
  strategic_fit? : Option Int := none
  eligibility? : Option Int := none
  effort? : Option Int := none
  impact? : Option Int := none
  timing? : Option Int := none
  blockers? : Option JStr := none
  deriving DecidableEq, Repr

/-- JS object spread `{ ...current.score, ...scorePatch }`. -/
def applyScorePatch (sc : ScoreCard) (p : ScorePatch) : ScoreCard :=
  { strategic_fit := p.strategic_fit?.getD sc.strategic_fit
    eligibility := p.eligibility?.getD sc.eligibility
    effort := p.effort?.getD sc.effort
    impact := p.impact?.getD sc.impact
    timing := p.timing?.getD sc.timing
    blockers := p.blockers?.getD sc.blockers }

/-- The opaque pass-through `_meta` object. -/
abbrev Meta := List (String × JsVal)

/-- The mutable state owned by `createStore`.  `storage` mirrors the
durable `localStorage` slot (see file header). -/
structure StoreState where
  meta : Meta
  opportunities : List Opportunity
  localOv : Overlay
  storage : Overlay
  rawDataPath : Option String
  loadError : JStr
  deriving DecidableEq, Repr

/-- A dataset / snapshot payload: either a bare array of raw records, or
an object with optional `_meta`, `opportunities`, `items` and `local`
fields (each `none` when the field is absent). -/
inductive Payload where
  | arr (records : List RawRecord)
  | pobj (meta? : Option Meta) (opps? : Option (List RawRecord))
      (items? : Option (List RawRecord)) (localo? : Option Overlay)
  deriving DecidableEq, Repr

/-! ### store.js operations -/

def idKeys : List String := ["id", "slug", "uid", "name", "title"]

/-- store.js `normalizeOpportunity(record, index)`. -/
def normalizeOpportunity (record : RawRecord) (index : Nat) : Opportunity :=
  let id := pick record idKeys (.scalar (.str (st "op-" ++ natDecimal (index + 1))))
  let title := pick record ["title", "name", "label"] (.scalar (.str (st "Sans titre")))
  let type := pick record ["type", "opportunity_type", "program_type"] (.scalar (.str []))
  let category := pick record ["category", "categories", "theme"] (.scalar (.str []))
  let axis := pick record ["axis", "axe", "axes"] (.scalar (.str []))
  let territory := pick record ["territory", "location", "zone"] (.scalar (.str []))
  let deadline := pick record ["deadline", "application_deadline", "end_date"] (.scalar (.str []))
  let sourceUrl := pick record ["url", "source_url", "link"] (.scalar (.str []))
  { id := id.toStr
    title := title
    type := joinJs (asArray type) (st ", ")
    category := joinJs (asArray category) (st ", ")
    axis := joinJs (asArray axis) (st ", ")
    territory := joinJs (asArray territory) (st ", ")
    deadline := toISODate deadline
    sourceUrl := sourceUrl
    raw := record }

/-- `list.map((record, index) => f record index)` starting at index `n`. -/
def mapIdxFrom (f : RawRecord → Nat → Opportunity) : Nat → List RawRecord → List Opportunity
  | _, [] => []
  | n, r :: rs => f r n :: mapIdxFrom f (n + 1) rs

/-- store.js `hydrateFromPayload(payload)`. -/
def hydrateFromPayload (p : Payload) (s : StoreState) : StoreState :=
  match p with
  | .arr records =>
    { s with meta := [], opportunities := mapIdxFrom normalizeOpportunity 0 records }
  | .pobj meta? opps? items? _ =>
    let source := match opps? with
      | some l => l
      | none => match items? with
        | some l => l
        | none => []
    { s with
      meta := meta?.getD []
      opportunities := mapIdxFrom normalizeOpportunity 0 source }

/-- store.js `getLocal(id)`. -/
def getLocal (s : StoreState) (id : JStr) : Annot :=
  (lookupOv s.localOv id).getD defaultAnnot

/-- `getLocal` as a state transformer: the source body contains no
assignment, so the read returns the state unchanged. -/
def getLocalOp (s : StoreState) (id : JStr) : Annot × StoreState :=
  (getLocal s id, s)

/-- store.js `patchLocal(id, patch)` followed by its synchronous
`persistLocalState()`. -/
def patchLocal (s : StoreState) (id : JStr) (p : PatchA) : StoreState :=
  let ov := setOv s.localOv id (applyPatch (getLocal s id) p)
  { s with localOv := ov, storage := ov }

/-- store.js `patchScore(id, scorePatch)`. -/
def patchScore (s : StoreState) (id : JStr) (sp : ScorePatch) : StoreState :=
  patchLocal s id { score? := some (applyScorePatch (getLocal s id).score sp) }

/-- JS `Array.prototype.indexOf` (as an `Option`: `none` encodes `-1`). -/
def jsFindIdx : List JStr → JStr → Option Nat
  | [], _ => none
  | a :: as, x => if a = x then some 0 else (jsFindIdx as x).map (· + 1)

/-- JS array indexing at a possibly negative index (`undefined` is
`none`). -/
def listGetInt (l : List JStr) (i : Int) : Option JStr :=
  if i < 0 then none else l.get? i.toNat

/-- The `{ status: next }` patch written by `moveStatus`. -/
def statusPatch (next : JStr) : PatchA := { status? := some next }

/-- store.js `moveStatus(id, direction)`: no-op when the current status
is not in `PIPELINE_STATUSES` or the target index is out of range
(`!next` also rejects an empty-string status, faithful to JS falsiness). -/
def moveStatus (s : StoreState) (id : JStr) (direction : Int) : StoreState :=
  match jsFindIdx PIPELINE_STATUSES (getLocal s id).status with
  | none => s
  | some index =>
    match listGetInt PIPELINE_STATUSES (index + direction) with
    | none => s
    | some next => if next = [] then s else patchLocal s id (statusPatch next)

/-- store.js `exportSnapshot()`: the original raw record of each
opportunity, the meta object and the full overlay mapping. -/
def exportSnapshot (s : StoreState) : Payload :=
  .pobj (some s.meta) (some (s.opportunities.map (·.raw))) none (some s.localOv)

/-- store.js `importSnapshot(payload)`: re-hydrates when an
`opportunities` array is present, replaces (and persists) the overlay
when a `local` object is present. -/
def importSnapshot (p : Payload) (s : StoreState) : StoreState :=
  match p with
  | .arr _ => s
  | .pobj _ opps? _ localo? =>
    let s1 := if opps?.isSome then hydrateFromPayload p s else s
    match localo? with
    | some ov => { s1 with localOv := ov, storage := ov }
    | none => s1

/-- store.js `DATA_CANDIDATES`. -/
def DATA_CANDIDATES : List String :=
  ["data/opportunities.seed.json", "./data/opportunities.json", "./data/data.json"]

/-- The advisory message set by `loadDataset` when every candidate fails. -/
def loadErrorMsg : JStr :=
  st "Impossible de charger automatiquement un fichier JSON depuis ./data. Utilisez Importer JSON."

/-- The candidate loop of store.js `loadDataset`: `fetchF` models the
retrieval-and-parse of one candidate (`none` covers network errors,
non-success responses and JSON parse errors alike). -/
def loadGo (fetchF : String → Option Payload) : List String → StoreState → StoreState
  | [], s => { s with loadError := loadErrorMsg }
  | p :: rest, s =>
    match fetchF p with
    | none => loadGo fetchF rest s
    | some payload =>
      { hydrateFromPayload payload s with rawDataPath := some p, loadError := [] }

/-- store.js `loadDataset()`. -/
def loadDataset (fetchF : String → Option Payload) (s : StoreState) : StoreState :=
  loadGo fetchF DATA_CANDIDATES s

/-- The read-time merged view: each opportunity paired with its overlay
entry (materialised with defaults when absent). -/
def mergedView (s : StoreState) : List (Opportunity × Annot) :=
  s.opportunities.map (fun op => (op, getLocal s op.id))

/-- Normalization-consistency: the opportunity list is the normalization
of its own raw records, in order.  Every store operation establishes or
preserves this (see the invariant theorem below), so it holds of every
reachable state. -/
abbrev normConsistent (s : StoreState) : Prop :=
  s.opportunities = mapIdxFrom normalizeOpportunity 0 (s.opportunities.map (·.raw))

/-! ### ui.js query engine and CSV export -/

/-- The filter/sort specification held by the presentation layer. -/
structure Filters where
  search : JStr := []
  type : JStr := []
  category : JStr := []
  axis : JStr := []
  territory : JStr := []
  min : JStr := []
  max : JStr := []
  urgent : Bool := false
  sort : JStr := st "asc"
  deriving DecidableEq, Repr

/-- ui.js `op.deadline || "9999-12-31"`: the missing-deadline
substitution used by both the range clauses and the sort. -/
def dueOf (op : Opportunity) : JStr :=
  if op.deadline = [] then st "9999-12-31" else op.deadline

/-- The inclusive deadline range clause of `filteredOpportunities`. -/
def inRangeClause (f : Filters) (due : JStr) : Bool :=
  (f.min.isEmpty || decide (f.min ≤ due)) && (f.max.isEmpty || decide (due ≤ f.max))

/-- The filter predicate of ui.js `filteredOpportunities`; `daysF` is the
ambient-clock-dependent utils.js `daysUntil`. -/
def passesFilter (daysF : JStr → Option Int) (s : StoreState) (f : Filters)
    (op : Opportunity) : Bool :=
  let loc := getLocal s op.id
  let text := List.intercalate (st " ")
    [jsValElemStr op.title, op.type, op.category, op.axis, op.territory, loc.notes]
  let urg := !f.urgent || decide ((daysF op.deadline).getD 999 < 7)
  textIncludes text f.search &&
  (f.type.isEmpty || decide (op.type = f.type)) &&
  (f.category.isEmpty || decide (op.category = f.category)) &&
  (f.axis.isEmpty || decide (op.axis = f.axis)) &&
  (f.territory.isEmpty || decide (op.territory = f.territory)) &&
  inRangeClause f (dueOf op) && urg

/-- The deadline comparator of `filteredOpportunities` as a boolean
"less-or-equal" (JS `sort` with comparator `c` is the stable sort by
`fun a b => c a b ≤ 0`). -/
def sortLe (f : Filters) (a b : Opportunity) : Bool :=
  if f.sort = st "asc" then decide (dueOf a ≤ dueOf b) else decide (dueOf b ≤ dueOf a)

/-- ui.js `filteredOpportunities()`: filter, then stable sort by
deadline (JS `Array.prototype.sort` is specified stable; `mergeSort` is
the stable sort by the same total preorder, hence produces the same
list). -/
def filteredOpportunities (daysF : JStr → Option Int) (s : StoreState) (f : Filters) :
    List Opportunity :=
  List.mergeSort (List.filter (passesFilter daysF s f) s.opportunities) (sortLe f)

/-- The CSV header of the export-csv handler in ui.js. -/
def csvHeader : JStr := st "Titre;Type;Catégorie;Axe;Territoire;Deadline;Statut;Responsable"

/-- One CSV row of the export-csv handler. -/
def csvRow (op : Opportunity) (a : Annot) : JStr :=
  List.intercalate (st ";")
    [csvEscapeVal op.title, csvEscape op.type, csvEscape op.category, csvEscape op.axis,
      csvEscape op.territory, csvEscape op.deadline, csvEscape a.status, csvEscape a.owner]

/-- The full CSV document written by the export-csv handler. -/
def csvExportDoc (daysF : JStr → Option Int) (s : StoreState) (f : Filters) : JStr :=
  List.intercalate (st "\n")
    (csvHeader :: (filteredOpportunities daysF s f).map (fun op => csvRow op (getLocal s op.id)))

/-- The score total computed by ui.js `openDrawer`: the sum of the five
numeric score fields, `blockers` excluded. -/
def totalScore (sc : ScoreCard) : Int :=
  sc.strategic_fit + sc.eligibility + sc.effort + sc.impact + sc.timing

/-! ### Concrete data used by witnesses and counterexamples -/

/-- The store state right after `createStore()` with empty storage. -/
def initState : StoreState :=
  { meta := []
    opportunities := []
    localOv := []
    storage := []
    rawDataPath := none
    loadError := [] }

/-- A record carrying an explicit id. -/
def recX : RawRecord := [("id", .scalar (.str (st "x")))]

/-- A record with a title but no usable identifier field. -/
def recNoId : RawRecord := [("titre", .scalar (.str (st "T")))]

/-- A dated record. -/
def recDated : RawRecord :=
  [("id", .scalar (.str (st "a"))), ("title", .scalar (.str (st "Alpha"))),
   ("deadline", .scalar (.str (st "2024-06-01")))]

/-- An undated record. -/
def recUndated : RawRecord :=
  [("id", .scalar (.str (st "b"))), ("title", .scalar (.str (st "Beta")))]

/-- A two-opportunity state built by a load, with an overlay entry keyed
by an id that is not in the opportunity list. -/
def stateTwo : StoreState :=
  patchLocal (hydrateFromPayload (.arr [recUndated, recDated]) initState)
    (st "ghost") { owner? := some (st "O") }

/-- A `daysUntil` model for a clock on which no deadline resolves. -/
def daysF0 : JStr → Option Int := fun _ => none

/-! ### Helper lemmas -/

def digitsVal : List Nat → Nat
  | [] => 0
  | d :: ds => d + 10 * digitsVal ds

theorem natDigsF_val : ∀ f n, n ≤ f → digitsVal (natDigsF f n) = n := by
  intro f
  induction f with
  | zero => intro n h; interval_cases n; simp [natDigsF, digitsVal]
  | succ f ih =>
    intro n h
    by_cases h0 : n = 0
    · simp [natDigsF, h0, digitsVal]
    · have hd : n / 10 ≤ f := by
        have : n / 10 < n := Nat.div_lt_self (Nat.pos_of_ne_zero h0) (by omega)
        omega
      simp [natDigsF, h0, digitsVal, ih _ hd]
      omega

theorem natDigsF_lt10 : ∀ f n d, d ∈ natDigsF f n → d < 10 := by
  intro f
  induction f with
  | zero => intro n d h; simp [natDigsF] at h
  | succ f ih =>
    intro n d h
    by_cases h0 : n = 0
    · simp [natDigsF, h0] at h
    · simp [natDigsF, h0] at h
      rcases h with h | h
      · omega
      · exact ih _ _ h

theorem digitToChar_inj {a b : Nat} (ha : a < 10) (hb : b < 10)
    (h : digitToChar a = digitToChar b) : a = b := by
  interval_cases a <;> interval_cases b <;> simp_all [digitToChar]

theorem map_digitToChar_inj : ∀ xs ys : List Nat, (∀ x ∈ xs, x < 10) → (∀ y ∈ ys, y < 10) →
    xs.map digitToChar = ys.map digitToChar → xs = ys := by
  intro xs
  induction xs with
  | nil => intro ys _ _ h; cases ys <;> simp_all
  | cons x xs ih =>
    intro ys hx hy h
    cases ys with
    | nil => simp_all
    | cons y ys =>
      simp only [List.map_cons, List.cons.injEq] at h
      have hxy : x = y := digitToChar_inj (hx x (by simp)) (hy y (by simp)) h.1
      have := ih ys (fun a ha => hx a (by simp [ha])) (fun a ha => hy a (by simp [ha])) h.2
      simp [hxy, this]

theorem natDecimal_inj : Function.Injective natDecimal := by
  intro m n h
  unfold natDecimal at h
  by_cases hm : m = 0 <;> by_cases hn : n = 0
  · omega
  · exfalso
    simp [hm, hn] at h
    have h10 := natDigsF_lt10 n n
    have hv := natDigsF_val n n le_rfl
    have hne : natDigsF n n = [0] → False := by
      intro he; rw [he] at hv; simp [digitsVal] at hv; omega
    have := congrArg List.reverse h
    simp at this
    have h1 : (natDigsF n n).map digitToChar = ['0'] := by
      cases hr : (natDigsF n n).map digitToChar <;> simp_all
    exact hne (map_digitToChar_inj (natDigsF n n) [0] (fun x hx => h10 x hx) (by simp)
      (by simp [h1, digitToChar]))
  · exfalso
    simp [hm, hn] at h
    have h10 := natDigsF_lt10 m m
    have hv := natDigsF_val m m le_rfl
    have hne : natDigsF m m = [0] → False := by
      intro he; rw [he] at hv; simp [digitsVal] at hv; omega
    have := congrArg List.reverse h
    simp at this
    have h1 : (natDigsF m m).map digitToChar = ['0'] := by
      cases hr : (natDigsF m m).map digitToChar <;> simp_all
    exact hne (map_digitToChar_inj (natDigsF m m) [0] (fun x hx => h10 x hx) (by simp)
      (by simp [h1, digitToChar]))
  · simp [hm, hn] at h
    have := congrArg List.reverse h
    simp at this
    have hd := map_digitToChar_inj (natDigsF m m) (natDigsF n n)
      (fun x hx => natDigsF_lt10 m m x hx) (fun y hy => natDigsF_lt10 n n y hy) this
    have hvm := natDigsF_val m m le_rfl
    have hvn := natDigsF_val n n le_rfl
    rw [hd] at hvm
    omega

theorem opId_inj : Function.Injective (fun n : Nat => st "op-" ++ natDecimal n) := by
  intro a b hab
  exact natDecimal_inj (List.append_cancel_left hab)

theorem lookupOv_setOv_self (ov : Overlay) (id : JStr) (a : Annot) :
    lookupOv (setOv ov id a) id = some a := by
  induction ov with
  | nil => simp [setOv, lookupOv, List.find?]
  | cons e rest ih =>
    by_cases h : e.1 = id
    · simp [setOv, h, lookupOv, List.find?]
    · simp only [setOv, h, if_false]
      simp only [lookupOv, List.find?] at ih ⊢
      simp [h, ih]

theorem getLocal_patchLocal (s : StoreState) (id : JStr) (p : PatchA) :
    getLocal (patchLocal s id p) id = applyPatch (getLocal s id) p := by
  simp [getLocal, patchLocal, lookupOv_setOv_self]

theorem statuses_ne_nil : ∀ x ∈ PIPELINE_STATUSES, x ≠ [] := by decide

theorem mem_of_listGetInt {l : List JStr} {i : Int} {x : JStr}
    (h : listGetInt l i = some x) : x ∈ l := by
  unfold listGetInt at h
  split at h
  · exact absurd h (by simp)
  · exact List.get?_mem h

theorem sortLe_trans (f : Filters) : ∀ a b c : Opportunity,
    sortLe f a b → sortLe f b c → sortLe f a c := by
  intro a b c h1 h2
  by_cases hs : f.sort = st "asc" <;>
    simp only [sortLe, hs, if_true, if_false, decide_eq_true_eq] at h1 h2 ⊢
  · exact le_trans h1 h2
  · exact le_trans h2 h1

theorem sortLe_total (f : Filters) : ∀ a b : Opportunity,
    sortLe f a b || sortLe f b a := by
  intro a b
  by_cases hs : f.sort = st "asc" <;>
    simp only [sortLe, hs, if_true, if_false, Bool.or_eq_true, decide_eq_true_eq]
  · exact le_total _ _
  · exact le_total _ _

theorem loadGo_allFail (fetchF : String → Option Payload) :
    ∀ (cands : List String) (s : StoreState), (∀ p ∈ cands, fetchF p = none) →
      loadGo fetchF cands s = { s with loadError := loadErrorMsg } := by
  intro cands
  induction cands with
  | nil => intro s _; rfl
  | cons c cs ih =>
    intro s h
    simp only [loadGo, h c (by simp)]
    exact ih s (fun p hp => h p (by simp [hp]))

theorem loadGo_stop (fetchF : String → Option Payload) :
    ∀ (pre : List String) (c : String) (post : List String) (pl : Payload) (s : StoreState),
      (∀ q ∈ pre, fetchF q = none) → fetchF c = some pl →
      loadGo fetchF (pre ++ c :: post) s = loadGo fetchF (pre ++ [c]) s := by
  intro pre
  induction pre with
  | nil =>
    intro c post pl s _ hc
    simp [loadGo, hc]
  | cons q pre ih =>
    intro c post pl s h hc
    simp only [List.cons_append, loadGo, h q (by simp)]
    exact ih c post pl s (fun q' hq' => h q' (by simp [hq'])) hc

theorem mapIdxFrom_ids (rs : List RawRecord) : ∀ k : Nat,
    (∀ r ∈ rs, pickVal r idKeys = none) →
    (mapIdxFrom normalizeOpportunity k rs).map (·.id) =
      (List.range' (k + 1) rs.length).map (fun n => st "op-" ++ natDecimal n) := by
  induction rs with
  | nil => intro k _; simp [mapIdxFrom]
  | cons r rs ih =>
    intro k hk
    simp only [mapIdxFrom, List.map_cons, List.length_cons, List.range', List.cons.injEq]
    refine ⟨?_, ih (k + 1) (fun r' hr' => hk r' (by simp [hr']))⟩
    simp [normalizeOpportunity, pick, hk r (by simp), JsVal.toStr, JsScalar.toStr]

theorem normalizeOpportunity_id_default (r : RawRecord) (i : Nat)
    (h : pickVal r idKeys = none) :
    (normalizeOpportunity r i).id = st "op-" ++ natDecimal (i + 1) := by
  simp [normalizeOpportunity, pick, h, JsVal.toStr, JsScalar.toStr]

theorem mapIdxFrom_get? : ∀ (rs : List RawRecord) (k i : Nat),
    (mapIdxFrom normalizeOpportunity k rs).get? i =
      (rs.get? i).map (fun r => normalizeOpportunity r (k + i)) := by
  intro rs
  induction rs with
  | nil => intro k i; simp [mapIdxFrom]
  | cons r rs ih =>
    intro k i
    cases i with
    | zero => simp [mapIdxFrom]
    | succ n =>
      show (mapIdxFrom normalizeOpportunity (k + 1) rs).get? n = _
      rw [ih (k + 1) n]
      have harith : k + 1 + n = k + (n + 1) := by omega
      rw [harith]
      rfl

/-! ### Claim theorems -/

/-- Claim C3: the recommendation is a pure function of the score card:
non-blank blockers force "No-Go (blockers)" regardless of the numeric
fields; otherwise the sum of the five numeric fields decides: at least 20
gives "Go", between 12 and 19 gives "À approfondir", below 12 gives
"No-Go". -/
theorem c3_recommendation_policy (sc : ScoreCard) :
    (trimJ sc.blockers ≠ [] →
      recommendation (totalScore sc) sc.blockers = st "No-Go (blockers)") ∧
    (trimJ sc.blockers = [] →
      (totalScore sc ≥ 20 → recommendation (totalScore sc) sc.blockers = st "Go") ∧
      (12 ≤ totalScore sc ∧ totalScore sc < 20 →
        recommendation (totalScore sc) sc.blockers = st "À approfondir") ∧
      (totalScore sc < 12 → recommendation (totalScore sc) sc.blockers = st "No-Go")) := by
  constructor
  · intro h
    simp [recommendation, h]
  · intro h
    refine ⟨fun h20 => ?_, fun h12 => ?_, fun hlt => ?_⟩
    · simp [recommendation, h, h20]
    · simp [recommendation, h, show ¬ totalScore sc ≥ 20 by omega,
        show totalScore sc ≥ 12 by omega]
    · simp [recommendation, h, show ¬ totalScore sc ≥ 20 by omega,
        show ¬ totalScore sc ≥ 12 by omega]

/-- Witness for C3: all-fives with empty blockers gives "Go"; the same
numbers with blockers "missing permit" are vetoed; totals 15 and 8 with
no blockers give "À approfondir" and "No-Go". -/
theorem c3_recommendation_policy_wit :
    recommendation (totalScore ⟨5, 5, 5, 5, 5, st ""⟩) (st "") = st "Go" ∧
    recommendation (totalScore ⟨5, 5, 5, 5, 5, st "missing permit"⟩) (st "missing permit") =
      st "No-Go (blockers)" ∧
    recommendation (totalScore ⟨5, 4, 3, 2, 1, st ""⟩) (st "") = st "À approfondir" ∧
    recommendation (totalScore ⟨2, 2, 2, 1, 1, st ""⟩) (st "") = st "No-Go" :=
  ⟨((c3_recommendation_policy ⟨5, 5, 5, 5, 5, st ""⟩).2 (by decide)).1 (by decide),
   (c3_recommendation_policy ⟨5, 5, 5, 5, 5, st "missing permit"⟩).1 (by decide),
   ((c3_recommendation_policy ⟨5, 4, 3, 2, 1, st ""⟩).2 (by decide)).2.1 (by decide),
   ((c3_recommendation_policy ⟨2, 2, 2, 1, 1, st ""⟩).2 (by decide)).2.2 (by decide)⟩

/-- Claim C5: `patchLocal` is a field-level shallow merge: patching
`owner` then `notes` leaves both present; a patch on an id with no entry
first materialises the default entry and merges into it, preserving all
unspecified fields; the full overlay is written back to durable storage. -/
theorem c5_patch_field_merge (s : StoreState) (id : JStr) (x y : JStr) (p : PatchA) :
    ((getLocal (patchLocal (patchLocal s id { owner? := some x }) id
        { notes? := some y }) id).owner = x ∧
     (getLocal (patchLocal (patchLocal s id { owner? := some x }) id
        { notes? := some y }) id).notes = y) ∧
    (lookupOv s.localOv id = none →
      getLocal (patchLocal s id p) id = applyPatch defaultAnnot p) ∧
    (patchLocal s id p).storage = (patchLocal s id p).localOv ∧
    (∀ a : Annot, applyPatch a p =
      { notes := p.notes?.getD a.notes
        status := p.status?.getD a.status
        owner := p.owner?.getD a.owner
        nextAction := p.nextAction?.getD a.nextAction
        nextDate := p.nextDate?.getD a.nextDate
        score := p.score?.getD a.score }) := by
  refine ⟨?_, fun h => ?_, rfl, fun a => rfl⟩
  · rw [getLocal_patchLocal, getLocal_patchLocal]
    simp [applyPatch]
  · rw [getLocal_patchLocal]
    simp [getLocal, h]

/-- Witness for C5: on an empty overlay, patching owner "X" then notes
"Y" on id "a" yields an entry carrying both, and the single patch
materialises the default entry. -/
theorem c5_patch_field_merge_wit :
    ((getLocal (patchLocal (patchLocal initState (st "a") { owner? := some (st "X") })
        (st "a") { notes? := some (st "Y") }) (st "a")).owner = st "X" ∧
     (getLocal (patchLocal (patchLocal initState (st "a") { owner? := some (st "X") })
        (st "a") { notes? := some (st "Y") }) (st "a")).notes = st "Y") ∧
    getLocal (patchLocal initState (st "a") { owner? := some (st "X") }) (st "a") =
      applyPatch defaultAnnot { owner? := some (st "X") } :=
  ⟨(c5_patch_field_merge initState (st "a") (st "X") (st "Y")
      { owner? := some (st "X") }).1,
   (c5_patch_field_merge initState (st "a") (st "X") (st "Y")
      { owner? := some (st "X") }).2.1 (by decide)⟩

/-- Claim C8: `getLocal` is a pure read: an id with no persisted entry
reads as the default entry (status "À qualifier" — the first pipeline
status — empty text fields, zeroed score, empty blockers), a persisted id
reads as the stored entry, and the read leaves the state (in-memory
overlay and durable storage alike) unchanged. -/
theorem c8_getLocal_pure_read (s : StoreState) (id : JStr) :
    (lookupOv s.localOv id = none → getLocal s id = defaultAnnot) ∧
    (∀ a : Annot, lookupOv s.localOv id = some a → getLocal s id = a) ∧
    getLocalOp s id = (getLocal s id, s) ∧
    defaultAnnot.status = st "À qualifier" ∧
    PIPELINE_STATUSES.headD [] = st "À qualifier" ∧
    defaultAnnot.notes = [] ∧ defaultAnnot.owner = [] ∧
    defaultAnnot.nextAction = [] ∧ defaultAnnot.nextDate = [] ∧
    defaultAnnot.score =
      { strategic_fit := 0, eligibility := 0, effort := 0, impact := 0,
        timing := 0, blockers := [] } := by
  refine ⟨fun h => ?_, fun a h => ?_, rfl, by decide, by decide, rfl, rfl, rfl, rfl, rfl⟩
  · simp [getLocal, h]
  · simp [getLocal, h]

/-- Witness for C8: in `stateTwo`, the unannotated id "nope" reads as the
default entry and the persisted id "ghost" reads back the stored entry. -/
theorem c8_getLocal_pure_read_wit :
    getLocal stateTwo (st "nope") = defaultAnnot ∧
    getLocal stateTwo (st "ghost") =
      applyPatch defaultAnnot { owner? := some (st "O") } :=
  ⟨(c8_getLocal_pure_read stateTwo (st "nope")).1 (by decide),
   (c8_getLocal_pure_read stateTwo (st "ghost")).2.1
     (applyPatch defaultAnnot { owner? := some (st "O") }) (by decide)⟩

/-- Counterexample for C9: the source's escaping test `/[",\n;]/` also
matches the comma, so the field "a,b" — which contains no semicolon, no
double quote and no newline — is nevertheless not emitted unchanged,
contradicting the claim's "a field containing none of these characters is
emitted unchanged". -/
theorem c9_csv_comma_counterexample :
    csvEscape (st "a,b") ≠ st "a,b" ∧
    (∀ c ∈ st "a,b", ¬ (c = ';' ∨ c = '"' ∨ c = '\n')) := by
  decide

/-- Claim C9, amended: a field containing the semicolon delimiter, a
double quote, a newline or a comma is wrapped in double quotes with
internal double quotes doubled (`escQuotes` doubles each quote and
distributes over concatenation); a field containing none of these four
characters is emitted unchanged; rows are semicolon-joined under the
fixed header. -/
theorem c9_csv_escaping_amended (sv : JStr) (daysF : JStr → Option Int)
    (s : StoreState) (f : Filters) :
    ((∃ c ∈ sv, c = ';' ∨ c = '"' ∨ c = '\n' ∨ c = ',') →
      csvEscape sv = '"' :: (escQuotes sv ++ ['"'])) ∧
    ((∀ c ∈ sv, ¬ (c = ';' ∨ c = '"' ∨ c = '\n' ∨ c = ',')) → csvEscape sv = sv) ∧
    (∀ a b : JStr, escQuotes (a ++ b) = escQuotes a ++ escQuotes b) ∧
    escQuotes ['"'] = ['"', '"'] ∧
    (∀ c : Char, c ≠ '"' → escQuotes [c] = [c]) ∧
    csvHeader = st "Titre;Type;Catégorie;Axe;Territoire;Deadline;Statut;Responsable" ∧
    csvExportDoc daysF s f = List.intercalate (st "\n")
      (csvHeader :: (filteredOpportunities daysF s f).map
        (fun op => csvRow op (getLocal s op.id))) := by
  refine ⟨fun h => ?_, fun h => ?_, ?_, by decide, fun c hc => ?_, rfl, rfl⟩
  · have hany : sv.any isCsvSpecial = true := by
      rw [List.any_eq_true]
      obtain ⟨c, hc, hor⟩ := h
      refine ⟨c, hc, ?_⟩
      simp only [isCsvSpecial]
      rcases hor with h1 | h1 | h1 | h1 <;> simp [h1]
    simp [csvEscape, hany]
  · have hany : sv.any isCsvSpecial = false := by
      rw [List.any_eq_false]
      intro c hc
      have := h c hc
      simp only [isCsvSpecial]
      intro hcon
      rcases of_decide_eq_true hcon with h1 | h1 | h1 | h1 <;> tauto
    simp [csvEscape, hany]
  · intro a b
    induction a with
    | nil => simp [escQuotes]
    | cons c cs ih =>
      by_cases hq : c = '"' <;> simp [escQuotes, hq, ih]
  · simp [escQuotes, hc]

/-- Witness for C9 (amended): "a;b" is wrapped (and its quotes doubled),
"ab" passes through unchanged. -/
theorem c9_csv_escaping_amended_wit :
    csvEscape (st "a;b") = '"' :: (escQuotes (st "a;b") ++ ['"']) ∧
    csvEscape (st "ab") = st "ab" :=
  ⟨(c9_csv_escaping_amended (st "a;b") daysF0 initState {}).1 (by decide),
   (c9_csv_escaping_amended (st "ab") daysF0 initState {}).2.1 (by decide)⟩

/-- Counterexample for C2: two raw records both carrying `id: "x"`
normalize to two opportunities with the same id — the Normalizer never
deduplicates upstream-supplied identifiers, so ids are not pairwise
distinct for every accepted dataset. -/
theorem c2_unique_ids_counterexample :
    ¬ (((hydrateFromPayload (.arr [recX, recX]) initState).opportunities.map (·.id)).Nodup) := by
  decide

/-- Claim C2, amended: in every dataset — mixed ones included — a record
at (0-based) position `i` that supplies no usable identifier field
receives the deterministically synthesized id `op-<i+1>` (the per-record
fallback of `pick`); and the ids are pairwise distinct whenever no record
supplies a usable identifier (then all ids are the distinct `op-<n>`),
but pairwise distinctness is not enforced for upstream-supplied
identifiers. -/
theorem c2_synthesized_ids_amended (records : List RawRecord) (s : StoreState) :
    (∀ (i : Nat) (r : RawRecord), records.get? i = some r →
      pickVal r idKeys = none →
      ((hydrateFromPayload (.arr records) s).opportunities.map (·.id)).get? i =
        some (st "op-" ++ natDecimal (i + 1))) ∧
    ((∀ r ∈ records, pickVal r idKeys = none) →
      ((hydrateFromPayload (.arr records) s).opportunities.map (·.id) =
        (List.range' 1 records.length).map (fun n => st "op-" ++ natDecimal n)) ∧
      ((hydrateFromPayload (.arr records) s).opportunities.map (·.id)).Nodup) := by
  constructor
  · intro i r hr hpick
    have hmap : ((hydrateFromPayload (.arr records) s).opportunities).get? i =
        some (normalizeOpportunity r i) := by
      simp only [hydrateFromPayload]
      rw [mapIdxFrom_get?, hr]
      simp
    rw [List.get?_map, hmap]
    simp [normalizeOpportunity_id_default r i hpick]
  · intro h
    have key : (hydrateFromPayload (.arr records) s).opportunities.map (·.id) =
        (List.range' 1 records.length).map (fun n => st "op-" ++ natDecimal n) := by
      simpa [hydrateFromPayload] using mapIdxFrom_ids records 0 h
    refine ⟨key, ?_⟩
    rw [key]
    exact (List.nodup_range' 1 records.length).map opId_inj

/-- Witness for C2 (amended): in the mixed dataset whose first record
carries `id: "x"` and whose second lacks any identifier field, the second
still gets the positional id "op-2"; and two records with no identifier
field get the distinct ids "op-1" and "op-2". -/
theorem c2_synthesized_ids_amended_wit :
    ((hydrateFromPayload (.arr [recX, recNoId]) initState).opportunities.map (·.id)).get? 1 =
      some (st "op-2") ∧
    ((hydrateFromPayload (.arr [recNoId, []]) initState).opportunities.map (·.id)).Nodup ∧
    (hydrateFromPayload (.arr [recNoId, []]) initState).opportunities.map (·.id) =
      [st "op-1", st "op-2"] := by
  refine ⟨(c2_synthesized_ids_amended [recX, recNoId] initState).1 1 recNoId
      (by decide) (by decide),
    ((c2_synthesized_ids_amended [recNoId, []] initState).2 (by decide)).2, ?_⟩
  rw [((c2_synthesized_ids_amended [recNoId, []] initState).2 (by decide)).1]
  decide

/-- Claim C4: when every candidate source fails, `loadDataset` only sets
the load-error message — `meta`, `opportunities` and the overlay are left
exactly as they were; and the candidate loop stops at the first success:
candidates after the first successful one are never consumed (the result
over `pre ++ c :: post` equals the result over `pre ++ [c]`). -/
theorem c4_load_error_handling (fetchF : String → Option Payload) (s : StoreState) :
    ((∀ p ∈ DATA_CANDIDATES, fetchF p = none) →
      loadDataset fetchF s = { s with loadError := loadErrorMsg } ∧
      (loadDataset fetchF s).meta = s.meta ∧
      (loadDataset fetchF s).opportunities = s.opportunities ∧
      (loadDataset fetchF s).localOv = s.localOv ∧
      (loadDataset fetchF s).storage = s.storage ∧
      (loadDataset fetchF s).loadError ≠ []) ∧
    (∀ (pre : List String) (c : String) (post : List String) (pl : Payload),
      (∀ q ∈ pre, fetchF q = none) → fetchF c = some pl →
      loadGo fetchF (pre ++ c :: post) s = loadGo fetchF (pre ++ [c]) s) := by
  constructor
  · intro h
    have he : loadDataset fetchF s = { s with loadError := loadErrorMsg } :=
      loadGo_allFail fetchF DATA_CANDIDATES s h
    refine ⟨he, ?_, ?_, ?_, ?_, ?_⟩ <;> rw [he]
    exact (by decide : loadErrorMsg ≠ [])
  · exact fun pre c post pl => loadGo_stop fetchF pre c post pl s

/-- Witness for C4: with every fetch failing, loading over `stateTwo`
keeps its opportunities and overlay; with the first candidate succeeding,
the loop result does not depend on the remaining candidates. -/
theorem c4_load_error_handling_wit :
    (loadDataset (fun _ => none) stateTwo).opportunities = stateTwo.opportunities ∧
    (loadDataset (fun _ => none) stateTwo).localOv = stateTwo.localOv ∧
    (loadDataset (fun _ => none) stateTwo).loadError ≠ [] ∧
    loadGo (fun _ => some (.arr [recX])) ([] ++ "data/opportunities.seed.json" ::
        ["./data/opportunities.json", "./data/data.json"]) stateTwo =
      loadGo (fun _ => some (.arr [recX])) ([] ++ ["data/opportunities.seed.json"]) stateTwo :=
  ⟨((c4_load_error_handling (fun _ => none) stateTwo).1 (fun p _ => rfl)).2.2.1,
   ((c4_load_error_handling (fun _ => none) stateTwo).1 (fun p _ => rfl)).2.2.2.1,
   ((c4_load_error_handling (fun _ => none) stateTwo).1 (fun p _ => rfl)).2.2.2.2.2,
   (c4_load_error_handling (fun _ => some (.arr [recX])) stateTwo).2
     [] "data/opportunities.seed.json" ["./data/opportunities.json", "./data/data.json"]
     (.arr [recX]) (fun q hq => absurd hq (by simp)) rfl⟩

/-- Claim C6: `moveStatus` with `-1` from the first pipeline status is a
no-op, with `+1` from the last is a no-op, and with a current status not
found in the fixed order is a no-op; otherwise (direction `±1`, target in
range) the status becomes the neighboring value of the fixed order. -/
theorem c6_move_boundary_noop (s : StoreState) (id : JStr) :
    ((getLocal s id).status = st "À qualifier" → moveStatus s id (-1) = s) ∧
    ((getLocal s id).status = st "Abandonné" → moveStatus s id 1 = s) ∧
    (jsFindIdx PIPELINE_STATUSES (getLocal s id).status = none →
      ∀ d : Int, moveStatus s id d = s) ∧
    (∀ (i : Nat) (d : Int) (next : JStr),
      jsFindIdx PIPELINE_STATUSES (getLocal s id).status = some i →
      (d = 1 ∨ d = -1) →
      listGetInt PIPELINE_STATUSES ((i : Int) + d) = some next →
      (getLocal (moveStatus s id d) id).status = next) := by
  refine ⟨fun h => ?_, fun h => ?_, fun h d => ?_, fun i d next hf hd hg => ?_⟩
  · have hfind : jsFindIdx PIPELINE_STATUSES (getLocal s id).status = some 0 := by
      rw [h]; decide
    have hget : listGetInt PIPELINE_STATUSES (-1) = none := by decide
    simp [moveStatus, hfind, hget]
  · have hfind : jsFindIdx PIPELINE_STATUSES (getLocal s id).status = some 5 := by
      rw [h]; decide
    have hget : listGetInt PIPELINE_STATUSES 6 = none := by decide
    simp [moveStatus, hfind, hget]
  · simp [moveStatus, h]
  · have hne : next ≠ [] := statuses_ne_nil next (mem_of_listGetInt hg)
    simp [moveStatus, hf, hg, hne, getLocal_patchLocal, applyPatch, statusPatch]

/-- Witness for C6: on a fresh overlay the status is "À qualifier", so
`move -1` is a no-op, and `move +1` advances to "En analyse"; after
advancing to the last status "Abandonné", `move +1` is again a no-op. -/
theorem c6_move_boundary_noop_wit :
    moveStatus initState (st "a") (-1) = initState ∧
    (getLocal (moveStatus initState (st "a") 1) (st "a")).status = st "En analyse" ∧
    moveStatus (patchLocal initState (st "a") (statusPatch (st "Abandonné"))) (st "a") 1 =
      patchLocal initState (st "a") (statusPatch (st "Abandonné")) :=
  ⟨(c6_move_boundary_noop initState (st "a")).1 (by decide),
   (c6_move_boundary_noop initState (st "a")).2.2.2 0 1 (st "En analyse")
     (by decide) (Or.inl rfl) (by decide),
   (c6_move_boundary_noop (patchLocal initState (st "a") (statusPatch (st "Abandonné")))
     (st "a")).2.1 (by decide)⟩

/-- Claim C10 (implicit): `moveStatus` does not restrict the direction to
`±1`: for any integer `d`, if the current status sits at index `i` of the
fixed order and index `i + d` exists, the status jumps to that element;
if `i + d` is out of range, or the current status is unrecognized, the
move is a no-op. -/
theorem c10_move_arbitrary_step (s : StoreState) (id : JStr) (d : Int) :
    (∀ (i : Nat) (next : JStr),
      jsFindIdx PIPELINE_STATUSES (getLocal s id).status = some i →
      listGetInt PIPELINE_STATUSES ((i : Int) + d) = some next →
      moveStatus s id d = patchLocal s id (statusPatch next) ∧
      (getLocal (moveStatus s id d) id).status = next) ∧
    (∀ i : Nat,
      jsFindIdx PIPELINE_STATUSES (getLocal s id).status = some i →
      listGetInt PIPELINE_STATUSES ((i : Int) + d) = none →
      moveStatus s id d = s) ∧
    (jsFindIdx PIPELINE_STATUSES (getLocal s id).status = none →
      moveStatus s id d = s) := by
  refine ⟨fun i next hf hg => ?_, fun i hf hg => ?_, fun h => ?_⟩
  · have hne : next ≠ [] := statuses_ne_nil next (mem_of_listGetInt hg)
    constructor
    · simp [moveStatus, hf, hg, hne]
    · simp [moveStatus, hf, hg, hne, getLocal_patchLocal, applyPatch, statusPatch]
  · simp [moveStatus, hf, hg]
  · simp [moveStatus, h]

/-- Witness for C10: the two-step jump `d = 2` from "À qualifier" lands
on "Go", and the out-of-range jump `d = 17` is a no-op. -/
theorem c10_move_arbitrary_step_wit :
    (getLocal (moveStatus initState (st "a") 2) (st "a")).status = st "Go" ∧
    moveStatus initState (st "a") 17 = initState :=
  ⟨((c10_move_arbitrary_step initState (st "a") 2).1 0 (st "Go")
      (by decide) (by decide)).2,
   (c10_move_arbitrary_step initState (st "a") 17).2.1 0 (by decide) (by decide)⟩

/-- Claim C1: `exportSnapshot` followed by `importSnapshot` of the
resulting payload reproduces an identical merged view — the same
normalized opportunities (export emits each opportunity's original raw
record, import re-normalizes them in the same order) and the same overlay
mapping, including entries keyed by ids not present in the opportunity
list.  The hypothesis states normalization-consistency of the state
(its opportunity list is the normalization of its own raw records, which
every load path establishes). -/
theorem c1_export_import_round_trip (s : StoreState) (h : normConsistent s) :
    (importSnapshot (exportSnapshot s) s).opportunities = s.opportunities ∧
    (importSnapshot (exportSnapshot s) s).localOv = s.localOv ∧
    (∀ id : JStr, lookupOv (importSnapshot (exportSnapshot s) s).localOv id =
      lookupOv s.localOv id) ∧
    mergedView (importSnapshot (exportSnapshot s) s) = mergedView s := by
  have e1 : (importSnapshot (exportSnapshot s) s).opportunities = s.opportunities := by
    simp only [importSnapshot, exportSnapshot, hydrateFromPayload, Option.isSome_some, if_true]
    exact h.symm
  have e2 : (importSnapshot (exportSnapshot s) s).localOv = s.localOv := by
    simp only [importSnapshot, exportSnapshot]
  refine ⟨e1, e2, fun id => by rw [e2], ?_⟩
  unfold mergedView
  rw [e1]
  have hf : (fun op : Opportunity =>
      (op, getLocal (importSnapshot (exportSnapshot s) s) op.id)) =
      (fun op : Opportunity => (op, getLocal s op.id)) := by
    funext op
    simp [getLocal, e2]
  rw [hf]

/-- Witness for C1: on a loaded two-opportunity state carrying an overlay
entry keyed by the id "ghost" (which no opportunity has), the round trip
reproduces the merged view and keeps that overlay entry. -/
theorem c1_export_import_round_trip_wit :
    mergedView (importSnapshot (exportSnapshot stateTwo) stateTwo) = mergedView stateTwo ∧
    lookupOv (importSnapshot (exportSnapshot stateTwo) stateTwo).localOv (st "ghost") =
      lookupOv stateTwo.localOv (st "ghost") :=
  ⟨(c1_export_import_round_trip stateTwo (by decide)).2.2.2,
   (c1_export_import_round_trip stateTwo (by decide)).2.2.1 (st "ghost")⟩

/-- Claim C7: an opportunity with an empty deadline is treated as having
deadline "9999-12-31" by the inclusive min/max range clauses (so max
"2023-12-31" excludes it and any min up to "9999-12-31" admits it), the
same substitution is the sort key, the sort is stable (equal deadlines
keep source order), and in ascending order anything following an undated
opportunity has the far-future sort key (so genuinely dated opportunities
precede undated ones). -/
theorem c7_deadline_defaults_and_sort (daysF : JStr → Option Int) (s : StoreState)
    (f : Filters) :
    (∀ op : Opportunity, op.deadline = [] → dueOf op = st "9999-12-31") ∧
    (∀ op : Opportunity, op.deadline = [] → f.max = st "2023-12-31" →
      op ∉ filteredOpportunities daysF s f) ∧
    (∀ op : Opportunity, op.deadline = [] → f.max = [] → f.min ≤ st "9999-12-31" →
      inRangeClause f (dueOf op) = true) ∧
    (∀ op : Opportunity, op.deadline ≠ [] → f.min = op.deadline → f.max = op.deadline →
      inRangeClause f (dueOf op) = true) ∧
    (∀ (l : List Opportunity) (a b : Opportunity), dueOf a = dueOf b →
      List.Sublist [a, b] l → List.Sublist [a, b] (List.mergeSort l (sortLe f))) ∧
    (f.sort = st "asc" →
      List.Pairwise (fun a b => dueOf a ≤ dueOf b) (filteredOpportunities daysF s f)) ∧
    (f.sort = st "asc" →
      ∀ i j : Fin (filteredOpportunities daysF s f).length, i < j →
        ((filteredOpportunities daysF s f).get i).deadline = [] →
        st "9999-12-31" ≤ dueOf ((filteredOpportunities daysF s f).get j)) := by
  have hsorted : f.sort = st "asc" →
      List.Pairwise (fun a b => dueOf a ≤ dueOf b) (filteredOpportunities daysF s f) := by
    intro hasc
    have hp : (List.mergeSort (List.filter (passesFilter daysF s f) s.opportunities)
        (sortLe f)).Pairwise (fun a b => sortLe f a b = true) :=
      List.sorted_mergeSort (sortLe_trans f) (sortLe_total f) _
    unfold filteredOpportunities
    refine hp.imp ?_
    intro a b hab
    simpa [sortLe, hasc] using hab
  refine ⟨fun op hdl => by simp [dueOf, hdl], ?_, ?_, ?_, ?_, hsorted, ?_⟩
  · intro op hdl hmax hmem
    unfold filteredOpportunities at hmem
    have hmem' : op ∈ List.filter (passesFilter daysF s f) s.opportunities :=
      List.mem_mergeSort.mp hmem
    have hp : passesFilter daysF s f op = true := (List.mem_filter.mp hmem').2
    simp only [passesFilter, Bool.and_eq_true] at hp
    have hin : inRangeClause f (dueOf op) = true := hp.1.2
    have hdue : dueOf op = st "9999-12-31" := by simp [dueOf, hdl]
    rw [hdue] at hin
    have h1 : f.max.isEmpty = false := by rw [hmax]; decide
    have h2 : decide ((st "9999-12-31" : JStr) ≤ f.max) = false := by rw [hmax]; decide
    simp [inRangeClause, h1, h2] at hin
  · intro op hdl hmax hmin
    have hdue : dueOf op = st "9999-12-31" := by simp [dueOf, hdl]
    rw [hdue]
    simp [inRangeClause, hmax, hmin]
  · intro op hne hmin hmax
    have hdue : dueOf op = op.deadline := by simp [dueOf, hne]
    rw [hdue]
    simp [inRangeClause, hmin, hmax]
  · intro l a b hdue hsub
    have hle : sortLe f a b = true := by
      by_cases hs : f.sort = st "asc" <;> simp [sortLe, hs, hdue]
    exact List.pair_sublist_mergeSort (sortLe_trans f) (sortLe_total f) hle hsub
  · intro hasc i j hij hdl
    have hp := List.pairwise_iff_get.mp (hsorted hasc) i j hij
    have hdi : dueOf ((filteredOpportunities daysF s f).get i) = st "9999-12-31" := by
      unfold dueOf
      rw [if_pos hdl]
    rw [hdi] at hp
    exact hp

/-- Witness for C7: in the loaded two-opportunity state, the undated
opportunity is excluded by max "2023-12-31", its range clause admits it
under min "2024-01-01" with no max, an exact-deadline min = max range
admits the dated one (inclusivity), and equal-key stability holds on a
concrete pair. -/
theorem c7_deadline_defaults_and_sort_wit :
    normalizeOpportunity recUndated 0 ∉
      filteredOpportunities daysF0 stateTwo { max := st "2023-12-31" } ∧
    inRangeClause { min := st "2024-01-01" }
      (dueOf (normalizeOpportunity recUndated 0)) = true ∧
    inRangeClause { min := st "2024-06-01", max := st "2024-06-01" }
      (dueOf (normalizeOpportunity recDated 1)) = true :=
  ⟨(c7_deadline_defaults_and_sort daysF0 stateTwo { max := st "2023-12-31" }).2.1
      (normalizeOpportunity recUndated 0) (by decide) rfl,
   (c7_deadline_defaults_and_sort daysF0 stateTwo { min := st "2024-01-01" }).2.2.1
      (normalizeOpportunity recUndated 0) (by decide) rfl (by decide),
   (c7_deadline_defaults_and_sort daysF0 stateTwo
      { min := st "2024-06-01", max := st "2024-06-01" }).2.2.2.1
      (normalizeOpportunity recDated 1) (by decide) (by decide) (by decide)⟩

/-! ### The normalization-consistency invariant -/

theorem mapIdxFrom_raw : ∀ (rs : List RawRecord) (k : Nat),
    (mapIdxFrom normalizeOpportunity k rs).map (·.raw) = rs := by
  intro rs
  induction rs with
  | nil => intro k; rfl
  | cons r rs ih =>
    intro k
    simp only [mapIdxFrom, List.map_cons, List.cons.injEq]
    exact ⟨rfl, ih (k + 1)⟩

theorem normConsistent_hydrate (p : Payload) (s : StoreState) :
    normConsistent (hydrateFromPayload p s) := by
  rcases p with records | ⟨m, o, it, lo⟩ <;>
    simp only [normConsistent, hydrateFromPayload, mapIdxFrom_raw]

theorem opportunities_moveStatus (s : StoreState) (id : JStr) (d : Int) :
    (moveStatus s id d).opportunities = s.opportunities := by
  unfold moveStatus
  split
  · rfl
  · split
    · rfl
    · split
      · rfl
      · rfl

/-- `normConsistent` holds of the initial state, is established by every
hydration, and is preserved by every store operation: the hypothesis of
the round-trip law holds of every reachable state. -/
theorem normConsistent_all_ops :
    normConsistent initState ∧
    (∀ (p : Payload) (s : StoreState), normConsistent (hydrateFromPayload p s)) ∧
    (∀ (s : StoreState) (id : JStr) (p : PatchA),
      normConsistent s → normConsistent (patchLocal s id p)) ∧
    (∀ (s : StoreState) (id : JStr) (sp : ScorePatch),
      normConsistent s → normConsistent (patchScore s id sp)) ∧
    (∀ (s : StoreState) (id : JStr) (d : Int),
      normConsistent s → normConsistent (moveStatus s id d)) ∧
    (∀ (p : Payload) (s : StoreState),
      normConsistent s → normConsistent (importSnapshot p s)) ∧
    (∀ (fetchF : String → Option Payload) (s : StoreState),
      normConsistent s → normConsistent (loadDataset fetchF s)) := by
  refine ⟨rfl, normConsistent_hydrate, fun s id p h => h, fun s id sp h => h,
    fun s id d h => ?_, fun p s h => ?_, fun fetchF s h => ?_⟩
  · unfold normConsistent
    rw [opportunities_moveStatus]
    exact h
  · rcases p with records | ⟨m, o, it, lo⟩
    · exact h
    · have hs1 : normConsistent
          (if (Option.isSome o) then hydrateFromPayload (.pobj m o it lo) s else s) := by
        rcases o with _ | l
        · simpa using h
        · simpa using normConsistent_hydrate (.pobj m (some l) it lo) s
      rcases lo with _ | ov
      · exact hs1
      · exact hs1
  · have general : ∀ (cands : List String) (s : StoreState),
        normConsistent s → normConsistent (loadGo fetchF cands s) := by
      intro cands
      induction cands with
      | nil => intro s hs; exact hs
      | cons c cs ih =>
        intro s hs
        cases hf : fetchF c with
        | none => simpa [loadGo, hf] using ih s hs
        | some pl =>
          simp only [loadGo, hf]
          exact normConsistent_hydrate pl s
    exact general DATA_CANDIDATES s h
